import Mathlib

/-!
# Verification of the ninenine-challenge repository against its specification

Shallow embedding of the repository's executable parts:

* `sum_to_n_a`, `sum_to_n_b`, `sum_to_n_c` — problem 4's three sum-to-n
  implementations (src/unnamed/part_000).
* `InputValidator.validateId` — the id sanitiser of problem 5
  (src/unnamed/part_005).
* `TokenBucketRateLimiter.is_allowed` and `rate_limit_middleware` — the
  token-bucket rate limiter of ADR-007 (src/problem6/ADR/007).
* The leaderboard / rank SQL queries of ADR-006 (src/unnamed/part_002).
* The live-scoreboard core (ScoreStore, ProofVerifier, LeaderboardCache,
  ScoreUpdateCoordinator): the repository specifies these in design
  documents only, so the missing operations are modelled from the spec
  (each such definition is marked `Modelled from the spec:`).

Numbers are embedded exactly: JavaScript/Python numeric values are `Int`,
`Nat` or `ℚ`; machine floating point is out of scope of the embedding.
-/

/-! ## Problem 4: three ways to sum to n (src/unnamed/part_000) -/

/-- The loop body of `sum_to_n_a`: `for (var i = 1; i <= n; i++) sum += i`
runs `i` through `1 .. n`, i.e. `n.toNat` iterations. -/
def sumLoopAux (m : Nat) : Int :=
  (List.range m).foldl (fun sum i => sum + ((i : Int) + 1)) 0

/-- `sum_to_n_a`: iterative loop accumulating `1 + 2 + ... + n`
(src/unnamed/part_000, lines 7-13). For `n < 1` the loop body never runs. -/
def sum_to_n_a (n : Int) : Int := sumLoopAux n.toNat

/-- `sum_to_n_b`: closed formula `n * (n + 1) / 2`
(src/unnamed/part_000, lines 20-22). JavaScript `/` is exact here because
`n * (n + 1)` is even and non-negative, so integer division is faithful. -/
def sum_to_n_b (n : Int) : Int := n * (n + 1) / 2

/-- `sum_to_n_c`: recursion `n <= 0 ? 0 : n + sum_to_n_c (n - 1)`
(src/unnamed/part_000, lines 29-33). -/
def sum_to_n_c (n : Int) : Int :=
  if _h : n ≤ 0 then 0
  else n + sum_to_n_c (n - 1)
termination_by n.toNat
decreasing_by simp_wf; omega

lemma sumLoopAux_succ (m : Nat) :
    sumLoopAux (m + 1) = sumLoopAux m + (m + 1) := by
  simp [sumLoopAux, List.range_succ]

lemma two_mul_sumLoopAux (m : Nat) :
    2 * sumLoopAux m = (m : Int) * (m + 1) := by
  induction m with
  | zero => simp [sumLoopAux]
  | succ k ih =>
    rw [sumLoopAux_succ]
    push_cast
    push_cast at ih
    ring_nf
    ring_nf at ih
    omega

lemma sum_to_n_c_nat (m : Nat) : sum_to_n_c (m : Int) = sumLoopAux m := by
  induction m with
  | zero =>
    rw [sum_to_n_c]
    simp [sumLoopAux]
  | succ k ih =>
    rw [sum_to_n_c]
    have h1 : ¬ ((k + 1 : Nat) : Int) ≤ 0 := by push_cast; omega
    simp only [h1, dite_false]
    have h2 : ((k + 1 : Nat) : Int) - 1 = (k : Int) := by push_cast; ring
    rw [h2, ih, sumLoopAux_succ]
    push_cast
    ring

lemma sum_to_n_c_of_nonneg (n : Int) (hn : 0 ≤ n) :
    sum_to_n_c n = sum_to_n_a n := by
  have hcast : ((n.toNat : Int)) = n := by omega
  have h := sum_to_n_c_nat n.toNat
  rw [hcast] at h
  rw [h]
  unfold sum_to_n_a
  rfl

/-- **C9.** For every integer `n ≥ 0` the three sum-to-n implementations
agree with the closed form `n * (n + 1) / 2`, and for every `n < 0` the
loop version and the recursive version both return `0`. -/
theorem sum_to_n_equivalence (n : Int) :
    (0 ≤ n →
      sum_to_n_a n = n * (n + 1) / 2 ∧
      sum_to_n_b n = n * (n + 1) / 2 ∧
      sum_to_n_c n = n * (n + 1) / 2) ∧
    (n < 0 → sum_to_n_a n = 0 ∧ sum_to_n_c n = 0) := by
  constructor
  · intro hn
    have hcast : ((n.toNat : Int)) = n := by omega
    have ha : sum_to_n_a n = n * (n + 1) / 2 := by
      have h2 := two_mul_sumLoopAux n.toNat
      rw [hcast] at h2
      unfold sum_to_n_a
      omega
    refine ⟨ha, ?_, ?_⟩
    · rfl
    · rw [sum_to_n_c_of_nonneg n hn, ha]
  · intro hn
    have htn : n.toNat = 0 := by omega
    constructor
    · simp [sum_to_n_a, htn, sumLoopAux]
    · rw [sum_to_n_c]
      simp [show n ≤ 0 by omega]

/-- Witness for C9 at the concrete inputs `n = 5` and `n = -2`. -/
theorem sum_to_n_equivalence_witness :
    (sum_to_n_a 5 = 15 ∧ sum_to_n_b 5 = 15 ∧ sum_to_n_c 5 = 15) ∧
    (sum_to_n_a (-2) = 0 ∧ sum_to_n_c (-2) = 0) := by
  constructor
  · exact (sum_to_n_equivalence 5).1 (by decide)
  · exact (sum_to_n_equivalence (-2)).2 (by decide)

/-! ## Problem 5: `InputValidator.validateId` (src/unnamed/part_005) -/

/-- Embedding of the regex test `/^\d+$/.test(idStr)`: non-empty and
decimal digits only. -/
def digitsOnly (s : String) : Bool :=
  !s.toList.isEmpty && s.toList.all Char.isDigit

/-- Embedding of `parseInt(idStr, 10)` on an all-digits string, with the
numeric value taken exactly (machine floating point is outside the
embedding). -/
def parseDecimal (s : String) : Nat :=
  s.toList.foldl (fun acc c => acc * 10 + (c.toNat - 48)) 0

/-- `Number.MAX_SAFE_INTEGER`. -/
def maxSafeInteger : Nat := 2 ^ 53 - 1

/-- `InputValidator.validateId` (src/unnamed/part_005, lines 58-77).
`none` stands for a `null`/`undefined` input, `some s` for any other input
after the `String(id)` conversion. The `isNaN` test of the source can
never fire after the digits-only test and has no counterpart in the exact
embedding. -/
def validateId (id : Option String) : Bool × Option Nat :=
  match id with
  | none => (false, none)
  | some s =>
    let idStr := s.trim
    if !(digitsOnly idStr) then (false, none)
    else
      let numericId := parseDecimal idStr
      if numericId ≤ 0 ∨ numericId > maxSafeInteger then (false, none)
      else (true, some numericId)

/-- The claim's validity condition, stated on the trimmed string: digits
only, and the parsed value `v` satisfies `0 < v ≤ Number.MAX_SAFE_INTEGER`. -/
def ValidIdString (s : String) : Prop :=
  s.trim.toList ≠ [] ∧ (∀ c ∈ s.trim.toList, c.isDigit = true) ∧
  0 < parseDecimal s.trim ∧ parseDecimal s.trim ≤ maxSafeInteger

lemma digitsOnly_iff (t : String) :
    digitsOnly t = true ↔ (t.toList ≠ [] ∧ ∀ c ∈ t.toList, c.isDigit = true) := by
  simp [digitsOnly, List.all_eq_true, List.isEmpty_iff]

/-- **C10.** `validateId` accepts exactly the non-null inputs whose
string form, trimmed, is all decimal digits with parsed value
`0 < v ≤ MAX_SAFE_INTEGER`, and then returns that parsed value; in every
other case it reports invalid with no value. -/
theorem validateId_correct (id : Option String) :
    (∀ v : Nat, validateId id = (true, some v) ↔
      ∃ s, id = some s ∧ ValidIdString s ∧ v = parseDecimal s.trim) ∧
    ((validateId id).1 = true ↔ ∃ s, id = some s ∧ ValidIdString s) := by
  cases id with
  | none => simp [validateId]
  | some s =>
    by_cases hd : digitsOnly s.trim
    · by_cases hr : parseDecimal s.trim ≤ 0 ∨ parseDecimal s.trim > maxSafeInteger
      · have hspec : ¬ ValidIdString s := by
          intro hv
          rcases hv with ⟨-, -, h1, h2⟩
          omega
        have hcond : parseDecimal s.trim = 0 ∨ maxSafeInteger < parseDecimal s.trim := by
          omega
        simp [validateId, hd, hcond, hspec]
      · have hspec : ValidIdString s := by
          have hdig := (digitsOnly_iff s.trim).mp hd
          exact ⟨hdig.1, hdig.2, by omega, by omega⟩
        have hcond : ¬ (parseDecimal s.trim = 0 ∨ maxSafeInteger < parseDecimal s.trim) := by
          omega
        simp [validateId, hd, hcond, hspec]
        intro v
        exact comm
    · have hspec : ¬ ValidIdString s := by
        intro hv
        exact hd ((digitsOnly_iff s.trim).mpr ⟨hv.1, hv.2.1⟩)
      simp [validateId, hd, hspec]

/-! ## ADR-007: token-bucket rate limiting (src/problem6/ADR/007-rate-limiting-strategy.md) -/

/-- Redis-stored bucket state: token count and last-refill time.
Tokens and time are real-valued in the source; embedded as `ℚ`. -/
structure Bucket where
  tokens : ℚ
  last_refill : ℚ
deriving DecidableEq, Repr

/-- Configuration of one `TokenBucketRateLimiter`. -/
structure TokenBucketRateLimiter where
  bucket_size : ℚ
  refill_rate : ℚ
deriving DecidableEq, Repr

/-- Result of `is_allowed`: the returned pair `(allowed, current_tokens)`
plus the bucket state written back to the store. -/
structure AllowResult where
  allowed : Bool
  available : ℚ
  stored : Bucket
deriving DecidableEq, Repr

/-- `TokenBucketRateLimiter.is_allowed` (ADR-007, lines 101-133): refill
proportionally to elapsed time, cap at capacity, deduct if enough tokens,
and write the bucket state back in either outcome. A missing stored state
(`none`) starts a full bucket refilled now. -/
def is_allowed (rl : TokenBucketRateLimiter) (st : Option Bucket)
    (current_time : ℚ) (tokens_requested : ℚ) : AllowResult :=
  let last_refill := match st with
    | some b => b.last_refill
    | none => current_time
  let current_tokens := match st with
    | some b => b.tokens
    | none => rl.bucket_size
  let time_elapsed := current_time - last_refill
  let tokens_to_add := time_elapsed * rl.refill_rate
  let current_tokens := min rl.bucket_size (current_tokens + tokens_to_add)
  if current_tokens ≥ tokens_requested then
    { allowed := true, available := current_tokens - tokens_requested,
      stored := { tokens := current_tokens - tokens_requested, last_refill := current_time } }
  else
    { allowed := false, available := current_tokens,
      stored := { tokens := current_tokens, last_refill := current_time } }

/-- **C4.** One `Allow` call on a bucket with capacity `C`, refill rate
`r`, stored tokens `t`, last refill `t0`: it computes
`refilled = min C (t + (now - t0) * r)`, grants and stores `refilled - 1`
when `refilled ≥ 1`, denies and stores `refilled` otherwise; in both
outcomes the stored state is rewritten with timestamp `now`, and the
stored token count never exceeds `C`. -/
theorem token_bucket_allow_correct (C r t t0 now : ℚ) :
    (is_allowed ⟨C, r⟩ (some ⟨t, t0⟩) now 1 =
      if 1 ≤ min C (t + (now - t0) * r) then
        ⟨true, min C (t + (now - t0) * r) - 1,
          ⟨min C (t + (now - t0) * r) - 1, now⟩⟩
      else
        ⟨false, min C (t + (now - t0) * r),
          ⟨min C (t + (now - t0) * r), now⟩⟩) ∧
    (is_allowed ⟨C, r⟩ (some ⟨t, t0⟩) now 1).stored.tokens ≤ C ∧
    (is_allowed ⟨C, r⟩ (some ⟨t, t0⟩) now 1).stored.last_refill = now := by
  have hmin : min C (t + (now - t0) * r) ≤ C := min_le_left _ _
  refine ⟨?_, ?_, ?_⟩
  · unfold is_allowed
    by_cases h : 1 ≤ min C (t + (now - t0) * r) <;> simp [h]
  · unfold is_allowed
    by_cases h : 1 ≤ min C (t + (now - t0) * r) <;> simp [h]
  · unfold is_allowed
    by_cases h : 1 ≤ min C (t + (now - t0) * r) <;> simp [h]

/-- Global per-IP limit: 300 requests/minute (ADR-007 `GLOBAL_LIMITS`),
i.e. capacity 300 refilling at 5 tokens/second. -/
def ipGlobalLimiter : TokenBucketRateLimiter := ⟨300, 5⟩

/-- Global per-user limit: 60 requests/minute (ADR-007
`USER_GLOBAL_LIMITS`), i.e. capacity 60 refilling at 1 token/second. -/
def userGlobalLimiter : TokenBucketRateLimiter := ⟨60, 1⟩

/-- Per-action limit: 10 actions/minute (ADR-007 `SCORE_UPDATE_LIMITS`),
i.e. capacity 10 refilling at 1/6 token/second. -/
def actionLimiter : TokenBucketRateLimiter := ⟨10, 1 / 6⟩

/-- Modelled from the spec: `check_ip_rate_limit` is called by
`rate_limit_middleware` but not defined in the repository; per ADR-007 it
is the token-bucket check on the IP-global bucket. -/
def check_ip_rate_limit (st : Option Bucket) (now : ℚ) : Bool :=
  (is_allowed ipGlobalLimiter st now 1).allowed

/-- Modelled from the spec: `check_user_global_rate_limit` (undefined in
the repository) is the token-bucket check on the user-global bucket. -/
def check_user_global_rate_limit (st : Option Bucket) (now : ℚ) : Bool :=
  (is_allowed userGlobalLimiter st now 1).allowed

/-- Modelled from the spec: `check_action_rate_limit` (undefined in the
repository) is the token-bucket check on the user+action bucket. -/
def check_action_rate_limit (st : Option Bucket) (now : ℚ) : Bool :=
  (is_allowed actionLimiter st now 1).allowed

/-- Modelled from the spec: `check_minimum_interval` (undefined in the
repository) enforces `min_interval_seconds = 3` of ADR-007. -/
def check_minimum_interval (lastAction : Option ℚ) (now : ℚ) : Bool :=
  match lastAction with
  | none => true
  | some t => decide (3 ≤ now - t)

/-- The exception raised by `rate_limit_middleware`. -/
structure RateLimitExceeded where
  message : String
  retry_after : ℚ
deriving DecidableEq, Repr

def ipLimitMsg : String := "IP rate limit exceeded"

def userLimitMsg : String := "User rate limit exceeded"

def actionLimitMsg : String := "Action rate limit exceeded"

def intervalMsg : String := "Too frequent actions"

/-- `rate_limit_middleware` (ADR-007, lines 151-172): the four layered
checks in order, each raising `RateLimitExceeded` with a fixed
`retry_after` (60, 60, 30, 3 seconds). -/
def rate_limit_middleware (ipB userB actB : Option Bucket)
    (lastAction : Option ℚ) (now : ℚ) : Except RateLimitExceeded Unit :=
  if !(check_ip_rate_limit ipB now) then .error ⟨ipLimitMsg, 60⟩
  else if !(check_user_global_rate_limit userB now) then .error ⟨userLimitMsg, 60⟩
  else if !(check_action_rate_limit actB now) then .error ⟨actionLimitMsg, 30⟩
  else if !(check_minimum_interval lastAction now) then .error ⟨intervalMsg, 3⟩
  else .ok ()

/-- A bucket layer's post-refill token count. -/
def layerAvailable (rl : TokenBucketRateLimiter) (st : Option Bucket) (now : ℚ) : ℚ :=
  match st with
  | some b => min rl.bucket_size (b.tokens + (now - b.last_refill) * rl.refill_rate)
  | none => rl.bucket_size

/-- The `retryAfter` formula stated by the spec for one layer:
`(1 - availableTokens) / refillRate`. -/
def layerRetryAfter (rl : TokenBucketRateLimiter) (st : Option Bucket) (now : ℚ) : ℚ :=
  (1 - layerAvailable rl st now) / rl.refill_rate

/-- The spec's words for the denied-request result: the longest
`retryAfter` among failing bucket layers. -/
def specRetryAfter (ipB userB actB : Option Bucket) (now : ℚ) : ℚ :=
  let layers := [(ipGlobalLimiter, ipB), (userGlobalLimiter, userB), (actionLimiter, actB)]
  ((layers.filter (fun p => layerAvailable p.1 p.2 now < 1)).map
    (fun p => layerRetryAfter p.1 p.2 now)).foldr max 0

/-- **C5 counterexample.** With the IP bucket empty at time 100 (all other
layers full), the middleware returns the fixed `retry_after = 60`, while
the spec's formula over failing layers evaluates to `1/5` second. -/
theorem retry_after_fixed_not_formula :
    rate_limit_middleware (some ⟨0, 100⟩) (some ⟨60, 100⟩) (some ⟨10, 100⟩) none 100 =
      .error ⟨ipLimitMsg, 60⟩ ∧
    specRetryAfter (some ⟨0, 100⟩) (some ⟨60, 100⟩) (some ⟨10, 100⟩) 100 = 1 / 5 ∧
    (60 : ℚ) ≠ 1 / 5 := by
  refine ⟨?_, ?_, by norm_num⟩
  · norm_num [rate_limit_middleware, check_ip_rate_limit, is_allowed,
      ipGlobalLimiter, min_def]
  · norm_num [specRetryAfter, layerAvailable, layerRetryAfter,
      ipGlobalLimiter, userGlobalLimiter, actionLimiter, min_def,
      List.filter, List.foldr]

/-- **C5 (amended).** When `rate_limit_middleware` denies a request it
raises `RateLimitExceeded` carrying the fixed `retry_after` of the first
failing layer — 60 s for the IP layer, 60 s for the user-global layer,
30 s for the action layer, 3 s for the minimum-interval layer —
independent of the failing bucket's token count. -/
theorem rate_limit_middleware_fixed_retry (ipB userB actB : Option Bucket)
    (lastAction : Option ℚ) (now : ℚ) :
    (check_ip_rate_limit ipB now = false →
      rate_limit_middleware ipB userB actB lastAction now = .error ⟨ipLimitMsg, 60⟩) ∧
    (check_ip_rate_limit ipB now = true →
      check_user_global_rate_limit userB now = false →
      rate_limit_middleware ipB userB actB lastAction now = .error ⟨userLimitMsg, 60⟩) ∧
    (check_ip_rate_limit ipB now = true →
      check_user_global_rate_limit userB now = true →
      check_action_rate_limit actB now = false →
      rate_limit_middleware ipB userB actB lastAction now = .error ⟨actionLimitMsg, 30⟩) ∧
    (check_ip_rate_limit ipB now = true →
      check_user_global_rate_limit userB now = true →
      check_action_rate_limit actB now = true →
      check_minimum_interval lastAction now = false →
      rate_limit_middleware ipB userB actB lastAction now = .error ⟨intervalMsg, 3⟩) := by
  refine ⟨?_, ?_, ?_, ?_⟩
  · intro h1
    simp [rate_limit_middleware, h1]
  · intro h1 h2
    simp [rate_limit_middleware, h1, h2]
  · intro h1 h2 h3
    simp [rate_limit_middleware, h1, h2, h3]
  · intro h1 h2 h3 h4
    simp [rate_limit_middleware, h1, h2, h3, h4]

/-- Witness for the amended C5 at concrete bucket states: an empty IP
bucket is refused with `retry_after = 60`, and a request 1 second after
the previous action is refused with `retry_after = 3`. -/
theorem rate_limit_middleware_fixed_retry_witness :
    rate_limit_middleware (some ⟨0, 100⟩) none none none 100 = .error ⟨ipLimitMsg, 60⟩ ∧
    rate_limit_middleware none none none (some 99) 100 = .error ⟨intervalMsg, 3⟩ := by
  have hip : check_ip_rate_limit (some ⟨0, 100⟩) 100 = false := by
    norm_num [check_ip_rate_limit, is_allowed, ipGlobalLimiter, min_def]
  have hipt : check_ip_rate_limit none 100 = true := by
    norm_num [check_ip_rate_limit, is_allowed, ipGlobalLimiter, min_def]
  have hut : check_user_global_rate_limit none 100 = true := by
    norm_num [check_user_global_rate_limit, is_allowed, userGlobalLimiter, min_def]
  have hat : check_action_rate_limit none 100 = true := by
    norm_num [check_action_rate_limit, is_allowed, actionLimiter, min_def]
  have hint : check_minimum_interval (some 99) 100 = false := by
    norm_num [check_minimum_interval]
  constructor
  · exact (rate_limit_middleware_fixed_retry (some ⟨0, 100⟩) none none none 100).1 hip
  · exact (rate_limit_middleware_fixed_retry none none none (some 99) 100).2.2.2
      hipt hut hat hint

/-! ## ADR-006: leaderboard and rank queries (src/unnamed/part_002, lines 114-131) -/

/-- A row of the `users` relation as the leaderboard queries read it. -/
structure UserRow where
  id : Nat
  username : String
  score : Int
deriving DecidableEq, Repr

/-- The SQL ordering `ORDER BY score DESC, id ASC` as a Boolean relation:
`rowBefore a b` holds when `a` sorts no later than `b`. -/
def rowBefore (a b : UserRow) : Bool :=
  b.score < a.score || (a.score == b.score && a.id ≤ b.id)

/-- `v` strictly precedes `u` in the leaderboard: higher score, or same
score and smaller id. -/
def strictlyPrecedes (v u : UserRow) : Bool :=
  u.score < v.score || (v.score == u.score && v.id < u.id)

/-- The relation the leaderboard query materialises: the `users` rows in
`ORDER BY score DESC, id ASC` order. -/
def leaderboardOrder (users : List UserRow) : List UserRow :=
  users.mergeSort rowBefore

/-- The leaderboard query (src/unnamed/part_002, lines 116-121):
`... ORDER BY score DESC, id ASC LIMIT k`. -/
def GetTopK (users : List UserRow) (k : Nat) : List UserRow :=
  (leaderboardOrder users).take k

/-- The user-rank query (src/unnamed/part_002, lines 124-130):
`ROW_NUMBER() OVER (ORDER BY score DESC, id ASC)` of the row with the
given id, or no row when the id is absent. -/
def GetRank (users : List UserRow) (uid : Nat) : Option Nat :=
  if (leaderboardOrder users).any (fun u => u.id == uid) then
    some ((leaderboardOrder users).findIdx (fun u => u.id == uid) + 1)
  else none

/-- The number of rows that strictly precede `u`; `1 +` this is the
claim's "1-based position in the ordering". -/
def countPreceding (users : List UserRow) (u : UserRow) : Nat :=
  users.countP (fun v => strictlyPrecedes v u)

lemma rowBefore_trans (a b c : UserRow) (hab : rowBefore a b = true)
    (hbc : rowBefore b c = true) : rowBefore a c = true := by
  simp [rowBefore] at hab hbc ⊢
  omega

lemma rowBefore_total (a b : UserRow) : (rowBefore a b || rowBefore b a) = true := by
  simp [rowBefore]
  omega

lemma strictlyPrecedes_irrefl (u : UserRow) : strictlyPrecedes u u = false := by
  simp [strictlyPrecedes]

lemma strictlyPrecedes_of_rowBefore (x u : UserRow) (h : rowBefore x u = true)
    (hne : x.id ≠ u.id) : strictlyPrecedes x u = true := by
  simp [rowBefore] at h
  simp [strictlyPrecedes]
  omega

lemma not_strictlyPrecedes_of_rowBefore (u y : UserRow) (h : rowBefore u y = true)
    (_hne : y.id ≠ u.id) : strictlyPrecedes y u = false := by
  simp [rowBefore] at h
  simp [strictlyPrecedes]
  omega

lemma findIdx_sorted_eq_countP (u : UserRow) :
    ∀ L : List UserRow, L.Pairwise (fun a b => rowBefore a b = true) →
      (L.map UserRow.id).Nodup → u ∈ L →
      L.findIdx (fun v => v.id == u.id) = L.countP (fun v => strictlyPrecedes v u) := by
  intro L
  induction L with
  | nil => intro _ _ hm; cases hm
  | cons x xs ih =>
    intro hp hnd hm
    rw [List.pairwise_cons] at hp
    simp only [List.map_cons, List.nodup_cons] at hnd
    by_cases hx : x.id = u.id
    · have hxu : x = u := by
        rcases List.mem_cons.mp hm with h | h
        · exact h.symm
        · exact absurd (hx ▸ List.mem_map_of_mem UserRow.id h) hnd.1
      subst hxu
      rw [List.findIdx_cons, List.countP_cons]
      have h0 : (x.id == x.id) = true := by simp
      have hcount : xs.countP (fun v => strictlyPrecedes v x) = 0 := by
        rw [List.countP_eq_zero]
        intro y hy
        have hyid : y.id ≠ x.id := by
          intro hcontra
          exact hnd.1 (hcontra ▸ List.mem_map_of_mem UserRow.id hy)
        simp [not_strictlyPrecedes_of_rowBefore x y (hp.1 y hy) hyid]
      simp [h0, hcount, strictlyPrecedes_irrefl]
    · have hmu : u ∈ xs := by
        rcases List.mem_cons.mp hm with h | h
        · exact absurd (h ▸ rfl) hx
        · exact h
      have hpred : (x.id == u.id) = false := by
        simp [hx]
      rw [List.findIdx_cons, List.countP_cons]
      have hsp : strictlyPrecedes x u = true :=
        strictlyPrecedes_of_rowBefore x u (hp.1 u hmu) hx
      simp [hpred, hsp, ih hp.2 hnd.2 hmu]

/-- **C6.** For stores whose ids are unique (the `users` primary key):
`GetRank` returns the 1-based position of the identity in the ordering by
score descending with id-ascending tie-break (1 + the number of rows that
strictly precede it); `GetTopK k` is the first `k` rows of that same
ordering; and the ordering — hence every snapshot built from `GetTopK` —
is a permutation of the store sorted by the ordering relation, with every
top-K row ordered no later than every dropped row. -/
theorem leaderboard_rank_topk (users : List UserRow) (k : Nat) (u : UserRow)
    (hnd : (users.map UserRow.id).Nodup) (hu : u ∈ users) :
    GetRank users u.id = some (countPreceding users u + 1) ∧
    GetTopK users k = (leaderboardOrder users).take k ∧
    (leaderboardOrder users).Perm users ∧
    (leaderboardOrder users).Pairwise (fun a b => rowBefore a b = true) ∧
    (∀ x ∈ GetTopK users k, ∀ y ∈ (leaderboardOrder users).drop k,
      rowBefore x y = true) := by
  have hperm : (leaderboardOrder users).Perm users :=
    List.mergeSort_perm users rowBefore
  have hsort : (leaderboardOrder users).Pairwise (fun a b => rowBefore a b = true) :=
    List.sorted_mergeSort rowBefore_trans rowBefore_total users
  have hndL : ((leaderboardOrder users).map UserRow.id).Nodup :=
    ((hperm.map UserRow.id).nodup_iff).mpr hnd
  have huL : u ∈ leaderboardOrder users := hperm.mem_iff.mpr hu
  refine ⟨?_, rfl, hperm, hsort, ?_⟩
  · have hany : (leaderboardOrder users).any (fun v => v.id == u.id) = true := by
      rw [List.any_eq_true]
      exact ⟨u, huL, by simp⟩
    have hidx := findIdx_sorted_eq_countP u (leaderboardOrder users) hsort hndL huL
    have hcnt : (leaderboardOrder users).countP (fun v => strictlyPrecedes v u) =
        countPreceding users u :=
      hperm.countP_eq _
    rw [GetRank, if_pos hany, hidx, hcnt]
  · intro x hx y hy
    have hsplit := hsort
    rw [← List.take_append_drop k (leaderboardOrder users),
      List.pairwise_append] at hsplit
    exact hsplit.2.2 x hx y hy

/-- A three-row store used as the concrete input of the C6 witness. -/
def demoUsers : List UserRow :=
  [⟨1, "alice", 10⟩, ⟨2, "bob", 20⟩, ⟨3, "carol", 20⟩]

/-- The row whose rank the C6 witness computes. -/
def demoUser : UserRow := ⟨1, "alice", 10⟩

/-- Witness for C6 at a concrete three-row store: ids are unique, the
row is present, and its rank is 1 + the number of strictly preceding
rows (both score-20 rows precede the score-10 row, so rank 3). -/
theorem leaderboard_rank_topk_witness :
    ((demoUsers.map UserRow.id).Nodup ∧ demoUser ∈ demoUsers) ∧
    GetRank demoUsers demoUser.id = some (countPreceding demoUsers demoUser + 1) ∧
    countPreceding demoUsers demoUser = 2 :=
  ⟨⟨by decide, by decide⟩,
    (leaderboard_rank_topk demoUsers 2 demoUser (by decide) (by decide)).1,
    by decide⟩


/-! ## ScoreStore (spec §4.3; the repository holds only the SQL transaction
sketch of c4-diagram.md Phase 6, so the store operations are modelled from
the spec) -/

/-- `ScoreChangeRecord` (spec §3): identity id, action type, points delta,
timestamp, the proof's nonce, and the opaque client payload. The record's
`delta` is the same value the transaction adds to the score, exactly as
Phase 6 uses one parameter for both `UPDATE ... score + ?` and the
`score_history` insert. -/
structure ScoreChangeRecord where
  identityId : Nat
  actionType : String
  delta : Int
  timestamp : ℚ
  nonce : String
  payload : String
deriving DecidableEq, Repr

/-- Errors of `ApplyIncrement` (spec §4.3). -/
inductive StoreError where
  | NotFound
  | ConcurrentConflict
deriving DecidableEq, Repr

/-- ScoreStore state: the identity/score relation plus the append-only
score history. -/
structure StoreState where
  scores : List (Nat × Int)
  history : List ScoreChangeRecord
deriving DecidableEq, Repr

/-- `SELECT score FROM users WHERE id = ident` over the score relation. -/
def scoresLookup : List (Nat × Int) → Nat → Option Int
  | [], _ => none
  | p :: rest, ident => if p.1 = ident then some p.2 else scoresLookup rest ident

/-- `UPDATE users SET score = ns WHERE id = ident` over the score relation. -/
def scoresUpdate : List (Nat × Int) → Nat → Int → List (Nat × Int)
  | [], _, _ => []
  | p :: rest, ident, ns =>
    if p.1 = ident then (ident, ns) :: scoresUpdate rest ident ns
    else p :: scoresUpdate rest ident ns

/-- An identity's current score, `0` for identities the store does not
hold (those can never be updated: `ApplyIncrement` returns `NotFound`). -/
def scoreOf (st : StoreState) (ident : Nat) : Int :=
  (scoresLookup st.scores ident).getD 0

/-- Modelled from the spec: `ScoreStore.ApplyIncrement` (§4.3) — the
repository describes the transaction only in c4-diagram.md Phase 6
(read score, `UPDATE users SET score = score + ?`, `INSERT INTO
score_history`, commit) with no implementation. One transaction: read the
current score, add the delta, write it back, append the record. -/
def ApplyIncrement (st : StoreState) (rec : ScoreChangeRecord) :
    Except StoreError (StoreState × Int) :=
  match scoresLookup st.scores rec.identityId with
  | none => .error .NotFound
  | some s =>
    let newScore := s + rec.delta
    .ok (⟨scoresUpdate st.scores rec.identityId newScore,
          st.history ++ [rec]⟩, newScore)

/-- Modelled from the spec: any concurrent execution of `ApplyIncrement`
calls is equivalent to some serial order (§4.3 "serializable with respect
to other ApplyIncrement calls on the same identity", §5 "serialized by
the store's transaction isolation"), so runs are modelled as arbitrary
sequences; the second component collects the accepted records. -/
def runOps : StoreState → List ScoreChangeRecord → StoreState × List ScoreChangeRecord
  | st, [] => (st, [])
  | st, op :: rest =>
    match ApplyIncrement st op with
    | .ok (st', _) => ((runOps st' rest).1, op :: (runOps st' rest).2)
    | .error _ => runOps st rest

/-- Sum of the deltas of an identity's records in a list. -/
def deltaSumFor (ident : Nat) (recs : List ScoreChangeRecord) : Int :=
  ((recs.filter (fun r => r.identityId == ident)).map ScoreChangeRecord.delta).sum

lemma scoresLookup_update (l : List (Nat × Int)) (i : Nat) (ns : Int) (j : Nat) :
    scoresLookup (scoresUpdate l i ns) j =
      if j = i then (scoresLookup l i).map (fun _ => ns) else scoresLookup l j := by
  induction l with
  | nil =>
    simp only [scoresUpdate, scoresLookup, Option.map_none]
    split <;> rfl
  | cons p rest ih =>
    by_cases hp : p.1 = i
    · by_cases hj : j = i
      · subst hj
        simp [scoresUpdate, scoresLookup, hp, ih]
      · have hij : ¬ i = j := fun h => hj h.symm
        simp [scoresUpdate, scoresLookup, hp, hj, ih, hij]
    · by_cases hj : j = i
      · subst hj
        simp [scoresUpdate, scoresLookup, hp, ih]
      · simp [scoresUpdate, scoresLookup, hp, hj, ih]

lemma applyIncrement_ok (st : StoreState) (rec : ScoreChangeRecord)
    (st' : StoreState) (ns : Int)
    (h : ApplyIncrement st rec = .ok (st', ns)) :
    (∀ j, scoreOf st' j = scoreOf st j + (if rec.identityId = j then rec.delta else 0)) ∧
    st'.history = st.history ++ [rec] ∧
    ns = scoreOf st rec.identityId + rec.delta := by
  unfold ApplyIncrement at h
  cases hl : scoresLookup st.scores rec.identityId with
  | none => rw [hl] at h; cases h
  | some s =>
    rw [hl] at h
    cases h
    refine ⟨?_, rfl, by simp [scoreOf, hl]⟩
    intro j
    by_cases hj : rec.identityId = j
    · subst hj
      simp [scoreOf, scoresLookup_update, hl]
    · have hji : ¬ j = rec.identityId := fun h => hj h.symm
      simp [scoreOf, scoresLookup_update, hji, hj]

/-- **C1.** Over every serialization of `ApplyIncrement` calls (the spec
makes concurrent calls on one identity serializable), each identity's
final score minus its initial score equals the sum of the deltas of
exactly the accepted calls' `ScoreChangeRecord`s, and the history grows by
exactly those records — no accepted update is lost or applied twice. -/
theorem score_sum_invariant (st : StoreState) (ops : List ScoreChangeRecord) (ident : Nat) :
    scoreOf (runOps st ops).1 ident = scoreOf st ident + deltaSumFor ident (runOps st ops).2 ∧
    (runOps st ops).1.history = st.history ++ (runOps st ops).2 := by
  induction ops generalizing st with
  | nil => simp [runOps, deltaSumFor]
  | cons op rest ih =>
    cases hap : ApplyIncrement st op with
    | error e =>
      simp only [runOps, hap]
      exact ih st
    | ok pr =>
      obtain ⟨st', ns⟩ := pr
      have hok := applyIncrement_ok st op st' ns hap
      simp only [runOps, hap]
      constructor
      · rw [(ih st').1, hok.1 ident]
        by_cases hi : op.identityId = ident
        · simp [deltaSumFor, List.filter_cons, hi]
          ring
        · simp [deltaSumFor, List.filter_cons, hi]
      · rw [(ih st').2, hok.2.1]
        simp

/-! ## ProofVerifier (spec §4.1; ADR-005 `validate_action_proof` in
src/unnamed/part_001 gives the check order, its helpers are undefined in
the repository and modelled from the spec) -/

/-- The idealized HMAC value: the signature over the canonical encoding
of {action type, timestamp, payload, expected points, nonce} (§3) is
modelled as the tuple of the secret and those fields, making the HMAC an
injective function as the cryptographic idealization assumes. -/
structure Hmac where
  secret : String
  action_type : String
  timestamp : ℚ
  action_data : String
  expected_points : Int
  nonce : String
deriving DecidableEq, Repr

/-- `ActionProof` (spec §3, ADR-005): action type, timestamp, opaque
payload, client signature, expected points, nonce. -/
structure ActionProof where
  action_type : String
  timestamp : ℚ
  action_data : String
  client_signature : Hmac
  expected_points : Int
  nonce : String
deriving DecidableEq, Repr

/-- Modelled from the spec: `generate_hmac` is called by
`validate_action_proof` (src/unnamed/part_001, line 104) but not defined
in the repository; §4.1 recomputes the signature over the canonical
encoding with the identity's secret. -/
def generate_hmac (secret : String) (p : ActionProof) : Hmac :=
  ⟨secret, p.action_type, p.timestamp, p.action_data, p.expected_points, p.nonce⟩

/-- Modelled from the spec: `secure_compare` (src/unnamed/part_001,
line 105, undefined there) is constant-time equality; timing is outside
the embedding, so it is equality. -/
def secure_compare (a b : Hmac) : Bool := a == b

/-- Modelled from the spec: `is_timestamp_fresh` (src/unnamed/part_001,
line 100, undefined there); §4.1 fixes it to `|now - timestamp| ≤ maxSkew`,
so timestamps too far in the past or the future both fail. -/
def is_timestamp_fresh (ts now skew : ℚ) : Bool := decide (|now - ts| ≤ skew)

/-- The default freshness window of 30 seconds (§4.1, ADR-005). -/
def maxSkew : ℚ := 30

/-- Modelled from the spec: the server-side table of allowed point ranges
per action type (§4.1) is an arbitrary function to (lo, hi); the check is
`lo ≤ expected_points ≤ hi`. -/
def pointsInRange (table : String → Int × Int) (p : ActionProof) : Bool :=
  decide ((table p.action_type).1 ≤ p.expected_points ∧
    p.expected_points ≤ (table p.action_type).2)

/-- Modelled from the spec: the atomic insert-if-absent on the
recently-seen `(identity, nonce)` set (§4.1; the repository has only the
`action_nonces` table with its `UNIQUE(user_id, nonce)` constraint).
Returns whether the pair was absent, together with the new set. -/
def recordNonceIfAbsent (seen : List (Nat × String)) (uid : Nat) (nonce : String) :
    Bool × List (Nat × String) :=
  if (uid, nonce) ∈ seen then (false, seen) else (true, (uid, nonce) :: seen)

/-- Rejection reasons of `Verify` (spec §4.1, §7). -/
inductive RejectReason where
  | StaleProof
  | InvalidSignature
  | ReplayedProof
  | ImplausiblePoints
deriving DecidableEq, Repr

/-- Outcome of `Verify`. -/
inductive VerifyOutcome where
  | Accepted
  | Rejected (reason : RejectReason)
deriving DecidableEq, Repr

/-- `ProofVerifier.Verify` (spec §4.1; check order as in
`validate_action_proof`, src/unnamed/part_001 lines 98-115: timestamp,
signature, nonce, action validation). On acceptance the nonce is recorded
atomically (insert-if-absent) before returning; a losing duplicate of a
concurrent insert resolves to `ReplayedProof`. -/
def Verify (table : String → Int × Int) (seen : List (Nat × String)) (uid : Nat)
    (secret : String) (p : ActionProof) (now : ℚ) :
    VerifyOutcome × List (Nat × String) :=
  if is_timestamp_fresh p.timestamp now maxSkew = false then
    (.Rejected .StaleProof, seen)
  else if secure_compare p.client_signature (generate_hmac secret p) = false then
    (.Rejected .InvalidSignature, seen)
  else if (uid, p.nonce) ∈ seen then
    (.Rejected .ReplayedProof, seen)
  else if pointsInRange table p = false then
    (.Rejected .ImplausiblePoints, seen)
  else
    let ins := recordNonceIfAbsent seen uid p.nonce
    if ins.1 then (.Accepted, ins.2) else (.Rejected .ReplayedProof, ins.2)

/-! ## LeaderboardCache (spec §4.4; the repository's c4-diagram.md Phase 7
shows only the coordinator's DELETE/SET usage, so the cache operations are
modelled from the spec) -/

/-- `LeaderboardSnapshot` (spec §3): the top-K entries (identity id and
score; the display name is irrelevant to the verified properties), a
generation counter, and a timestamp. -/
structure LeaderboardSnapshot where
  entries : List (Nat × Int)
  generation : Nat
  timestamp : ℚ
deriving DecidableEq, Repr

/-- Generation of the cached snapshot, `0` when the cache is empty. -/
def cacheGeneration : Option LeaderboardSnapshot → Nat
  | none => 0
  | some s => s.generation

/-- Modelled from the spec: `LeaderboardCache.Populate` (§4.4) — keeps
only the snapshot with the highest generation counter, discarding stale
concurrent writes (last-writer-by-generation). -/
def Populate (cache : Option LeaderboardSnapshot) (s : LeaderboardSnapshot) :
    Option LeaderboardSnapshot :=
  match cache with
  | none => some s
  | some cur => if s.generation < cur.generation then some cur else some s

/-! ## ScoreUpdateCoordinator (spec §4.6; the repository's c4-diagram.md
Phases 5-9 show the flow only, so the coordinator is modelled from the
spec) -/

/-- The coordinator's error taxonomy (spec §7) as far as the modelled
pipeline can produce it. -/
inductive ErrorKind where
  | RateLimited (retryAfter : ℚ)
  | ProofRejected (reason : RejectReason)
  | IdentityNotFound
deriving DecidableEq, Repr

/-- The coordinator's response to the caller. -/
inductive CoordResponse where
  | ok (newScore : Int)
  | err (kind : ErrorKind)
deriving DecidableEq, Repr

/-- One broadcast event: `{updatedIdentity, newScore}` (spec §4.6 step 5,
with the top-K list omitted as irrelevant to the verified properties). -/
structure BroadcastEvent where
  updatedIdentity : Nat
  newScore : Int
deriving DecidableEq, Repr

/-- The whole system state the coordinator touches: store, replay set,
the caller's rate-limit bucket, the leaderboard cache and the broadcast
log. -/
structure SystemState where
  store : StoreState
  nonces : List (Nat × String)
  bucket : Option Bucket
  cache : Option LeaderboardSnapshot
  events : List BroadcastEvent
deriving DecidableEq, Repr

/-- Modelled from the spec: the `ScoreUpdateCoordinator` pipeline (§4.6):
rate limit → verify proof → `ApplyIncrement` → cache refresh → broadcast
→ respond. `cacheFails` and `broadcastFails` inject infrastructure
failures into stages 4-5, which the spec logs and retries in the
background instead of failing the request. The rate-limit stage uses the
user-global bucket; its deduction happens regardless of the outcome. -/
def handleScoreUpdate (table : String → Int × Int) (sys : SystemState) (uid : Nat)
    (secret : String) (p : ActionProof) (now : ℚ)
    (cacheFails broadcastFails : Bool) : SystemState × CoordResponse :=
  let res := is_allowed userGlobalLimiter sys.bucket now 1
  let sys1 : SystemState := { sys with bucket := some res.stored }
  if res.allowed = false then
    (sys1, .err (.RateLimited (layerRetryAfter userGlobalLimiter sys.bucket now)))
  else
    match Verify table sys1.nonces uid secret p now with
    | (.Rejected r, seen') => ({ sys1 with nonces := seen' }, .err (.ProofRejected r))
    | (.Accepted, seen') =>
      let sys2 := { sys1 with nonces := seen' }
      let change : ScoreChangeRecord :=
        ⟨uid, p.action_type, p.expected_points, p.timestamp, p.nonce, p.action_data⟩
      match ApplyIncrement sys2.store change with
      | .error _ => (sys2, .err .IdentityNotFound)
      | .ok (store', newScore) =>
        let sys3 := { sys2 with store := store' }
        let snap : LeaderboardSnapshot :=
          ⟨store'.scores, cacheGeneration sys3.cache + 1, now⟩
        let sys4 := if cacheFails then sys3 else
          { sys3 with cache := Populate sys3.cache snap }
        let sys5 := if broadcastFails then sys4 else
          { sys4 with events := sys4.events ++ [⟨uid, newScore⟩] }
        (sys5, .ok newScore)

/-- **C7.** The response returned to the caller and the committed store
are the same whether or not the cache-refresh or broadcast stages fail:
once `ApplyIncrement` has committed, downstream failures never produce a
failure response and never roll the store back; and the error responses
of the earlier stages do not depend on those failures either. -/
theorem committed_update_not_downgraded (table : String → Int × Int)
    (sys : SystemState) (uid : Nat) (secret : String) (p : ActionProof)
    (now : ℚ) (cacheFails broadcastFails : Bool) :
    (handleScoreUpdate table sys uid secret p now cacheFails broadcastFails).2 =
      (handleScoreUpdate table sys uid secret p now false false).2 ∧
    (handleScoreUpdate table sys uid secret p now cacheFails broadcastFails).1.store =
      (handleScoreUpdate table sys uid secret p now false false).1.store := by
  unfold handleScoreUpdate
  by_cases hr : (is_allowed userGlobalLimiter sys.bucket now 1).allowed = false
  · simp [hr]
  · simp only [hr, if_false]
    cases hv : Verify table sys.nonces uid secret p now with
    | mk outcome seen' =>
      cases outcome with
      | Rejected r => simp [hv]
      | Accepted =>
        simp only [hv]
        cases hap : ApplyIncrement sys.store
            ⟨uid, p.action_type, p.expected_points, p.timestamp, p.nonce, p.action_data⟩ with
        | error e => simp [hap]
        | ok pr =>
          cases cacheFails <;> cases broadcastFails <;> simp [hap]

/-- **C3.** `Verify` answers `Rejected StaleProof` exactly when
`|now - timestamp| > maxSkew` — too old and too far in the future alike —
and a stale proof leaves the store and the broadcast log untouched while
the caller gets the `StaleProof` error. -/
theorem stale_proof_rejected (table : String → Int × Int) (seen : List (Nat × String))
    (uid : Nat) (secret : String) (p : ActionProof) (now : ℚ) :
    ((Verify table seen uid secret p now).1 = .Rejected .StaleProof ↔
      maxSkew < |now - p.timestamp|) ∧
    (∀ sys : SystemState, ∀ cacheFails broadcastFails : Bool,
      (is_allowed userGlobalLimiter sys.bucket now 1).allowed = true →
      maxSkew < |now - p.timestamp| →
      (handleScoreUpdate table sys uid secret p now cacheFails broadcastFails).1.store =
        sys.store ∧
      (handleScoreUpdate table sys uid secret p now cacheFails broadcastFails).1.events =
        sys.events ∧
      (handleScoreUpdate table sys uid secret p now cacheFails broadcastFails).2 =
        .err (.ProofRejected .StaleProof)) := by
  constructor
  · by_cases hf : is_timestamp_fresh p.timestamp now maxSkew = false
    · have hst : maxSkew < |now - p.timestamp| := by
        simp [is_timestamp_fresh] at hf
        linarith
      simp [Verify, hf, hst]
    · have hfresh : is_timestamp_fresh p.timestamp now maxSkew = true := by
        simp at hf
        exact hf
      have hnst : ¬ maxSkew < |now - p.timestamp| := by
        simp [is_timestamp_fresh] at hfresh
        linarith
      rw [Verify, if_neg hf]
      split_ifs <;> (simp [hnst]; try (split <;> simp))
  · intro sys cacheFails broadcastFails hallow hst
    have hf : is_timestamp_fresh p.timestamp now maxSkew = false := by
      simp [is_timestamp_fresh]
      linarith
    have hv : Verify table sys.nonces uid secret p now =
        (.Rejected .StaleProof, sys.nonces) := by
      simp [Verify, hf]
    have hr : ¬ ((is_allowed userGlobalLimiter sys.bucket now 1).allowed = false) := by
      simp [hallow]
    refine ⟨?_, ?_, ?_⟩ <;> simp [handleScoreUpdate, hr, hv]

/-- The fixed points-range table used by the concrete witnesses. -/
def demoTable : String → Int × Int := fun _ => (0, 100)

/-- The demo proof's signature: the idealized HMAC of the demo fields
under the secret of the witness scenarios. -/
def demoSig : Hmac := ⟨"s", "puzzle_complete", 0, "d", 50, "n1"⟩

/-- A correctly signed demo proof with timestamp 0. -/
def demoProof : ActionProof := ⟨"puzzle_complete", 0, "d", demoSig, 50, "n1"⟩

/-- A demo system state: one identity (id 7, score 100), empty replay
set, no bucket state, empty cache and broadcast log. -/
def demoSys : SystemState := ⟨⟨[(7, 100)], []⟩, [], none, none, []⟩

/-- Witness for C3: the demo proof submitted 45 seconds after its
timestamp (window 30 s) changes neither store nor broadcast log and the
caller receives the `StaleProof` error. -/
theorem stale_proof_rejected_witness :
    ((is_allowed userGlobalLimiter demoSys.bucket 45 1).allowed = true ∧
      maxSkew < |(45 : ℚ) - demoProof.timestamp|) ∧
    ((handleScoreUpdate demoTable demoSys 7 "s" demoProof 45 false false).1.store =
      demoSys.store ∧
    (handleScoreUpdate demoTable demoSys 7 "s" demoProof 45 false false).1.events =
      demoSys.events ∧
    (handleScoreUpdate demoTable demoSys 7 "s" demoProof 45 false false).2 =
      .err (.ProofRejected .StaleProof)) := by
  have hallow : (is_allowed userGlobalLimiter demoSys.bucket 45 1).allowed = true := by
    norm_num [is_allowed, userGlobalLimiter, demoSys, min_def]
  have hst : maxSkew < |(45 : ℚ) - demoProof.timestamp| := by
    norm_num [demoProof, maxSkew]
  exact ⟨⟨hallow, hst⟩,
    (stale_proof_rejected demoTable [] 7 "s" demoProof 45).2 demoSys false false hallow hst⟩

/-- **C2.** For a proof whose other checks pass and whose `(identity,
nonce)` pair is not yet recorded, submitting it twice resolves to exactly
one acceptance and one `ReplayedProof` rejection; the accepted submission
records the nonce atomically before returning, so the losing duplicate is
rejected by that very record. The two submissions carry the same proof,
so the two serialization orders of the atomic insert are symmetric:
whichever runs first is the accepted one. -/
theorem duplicate_nonce_exactly_one (table : String → Int × Int)
    (seen : List (Nat × String)) (uid : Nat) (secret : String)
    (p : ActionProof) (now : ℚ)
    (hnonce : (uid, p.nonce) ∉ seen)
    (hfresh : is_timestamp_fresh p.timestamp now maxSkew = true)
    (hsig : secure_compare p.client_signature (generate_hmac secret p) = true)
    (hpts : pointsInRange table p = true) :
    (Verify table seen uid secret p now).1 = .Accepted ∧
    (uid, p.nonce) ∈ (Verify table seen uid secret p now).2 ∧
    (Verify table (Verify table seen uid secret p now).2 uid secret p now).1 =
      .Rejected .ReplayedProof ∧
    (Verify table (Verify table seen uid secret p now).2 uid secret p now).2 =
      (Verify table seen uid secret p now).2 := by
  have h1 : Verify table seen uid secret p now = (.Accepted, (uid, p.nonce) :: seen) := by
    simp [Verify, hfresh, hsig, hpts, recordNonceIfAbsent, hnonce]
  have h2 : Verify table ((uid, p.nonce) :: seen) uid secret p now =
      (.Rejected .ReplayedProof, (uid, p.nonce) :: seen) := by
    simp [Verify, hfresh, hsig]
  rw [h1]
  exact ⟨rfl, List.mem_cons_self _ _, by rw [h2], by rw [h2]⟩

/-- Witness for C2: the demo proof with nonce `n1`, submitted twice at
time 0 for identity 7, is accepted once and rejected as `ReplayedProof`
once. -/
theorem duplicate_nonce_exactly_one_witness :
    ((7, demoProof.nonce) ∉ ([] : List (Nat × String)) ∧
      is_timestamp_fresh demoProof.timestamp 0 maxSkew = true ∧
      secure_compare demoProof.client_signature (generate_hmac "s" demoProof) = true ∧
      pointsInRange demoTable demoProof = true) ∧
    (Verify demoTable [] 7 "s" demoProof 0).1 = .Accepted ∧
    (Verify demoTable (Verify demoTable [] 7 "s" demoProof 0).2 7 "s" demoProof 0).1 =
      .Rejected .ReplayedProof := by
  have hnonce : (7, demoProof.nonce) ∉ ([] : List (Nat × String)) := by
    simp
  have hfresh : is_timestamp_fresh demoProof.timestamp 0 maxSkew = true := by
    norm_num [is_timestamp_fresh, demoProof, maxSkew]
  have hsig : secure_compare demoProof.client_signature (generate_hmac "s" demoProof) = true := by
    simp [secure_compare, demoProof, demoSig, generate_hmac]
  have hpts : pointsInRange demoTable demoProof = true := by
    norm_num [pointsInRange, demoTable, demoProof]
  have h := duplicate_nonce_exactly_one demoTable [] 7 "s" demoProof 0
    hnonce hfresh hsig hpts
  exact ⟨⟨hnonce, hfresh, hsig, hpts⟩, h.1, h.2.2.1⟩

lemma cacheGeneration_le_populate (cache : Option LeaderboardSnapshot)
    (s : LeaderboardSnapshot) :
    cacheGeneration cache ≤ cacheGeneration (Populate cache s) := by
  cases cache with
  | none => simp [cacheGeneration]
  | some cur =>
    by_cases h : s.generation < cur.generation
    · simp [Populate, cacheGeneration, h]
    · simp [Populate, cacheGeneration, h]
      omega

/-- **C8.** The cached snapshot's generation counter never decreases: a
`Populate` carrying a generation lower than the cached one is discarded
(the cache value is unchanged), a single `Populate` never lowers the
generation, and over any sequence of `Populate` calls — any completion
order of concurrent refreshes — the stored generation is monotonically
non-decreasing. -/
theorem cache_never_regresses (cache : Option LeaderboardSnapshot)
    (s : LeaderboardSnapshot) (snaps : List LeaderboardSnapshot) :
    (s.generation < cacheGeneration cache → Populate cache s = cache) ∧
    cacheGeneration cache ≤ cacheGeneration (Populate cache s) ∧
    cacheGeneration cache ≤ cacheGeneration (snaps.foldl Populate cache) := by
  refine ⟨?_, cacheGeneration_le_populate cache s, ?_⟩
  · intro hlt
    cases cache with
    | none => simp [cacheGeneration] at hlt
    | some cur =>
      simp only [cacheGeneration] at hlt
      simp [Populate, hlt]
  · induction snaps generalizing cache with
    | nil => simp
    | cons t ts ih =>
      simp only [List.foldl_cons]
      exact le_trans (cacheGeneration_le_populate cache t) (ih (Populate cache t))

/-- Witness for C8 at concrete snapshots: a generation-3 `Populate`
against a generation-5 cache is discarded, and a refresh sequence
completing out of order (generations 7 then 6) never lowers the stored
generation. -/
theorem cache_never_regresses_witness :
    ((3 : Nat) < cacheGeneration (some ⟨[], 5, 0⟩) ∧
      Populate (some ⟨[], 5, 0⟩) ⟨[], 3, 1⟩ = some ⟨[], 5, 0⟩) ∧
    cacheGeneration (some ⟨[], 5, 0⟩) ≤
      cacheGeneration ([⟨[], 7, 2⟩, ⟨[], 6, 3⟩].foldl Populate (some ⟨[], 5, 0⟩)) := by
  have hlt : ((⟨[], 3, 1⟩ : LeaderboardSnapshot)).generation <
      cacheGeneration (some ⟨[], 5, 0⟩) := by
    simp [cacheGeneration]
  exact ⟨⟨hlt, (cache_never_regresses (some ⟨[], 5, 0⟩) ⟨[], 3, 1⟩ []).1 hlt⟩,
    (cache_never_regresses (some ⟨[], 5, 0⟩) ⟨[], 3, 1⟩ [⟨[], 7, 2⟩, ⟨[], 6, 3⟩]).2.2⟩
